import Mathlib

/-!
Verification of the evaluation core of the `.dena` tree-walking interpreter
(scanner/parser excluded): the runtime value model (`src/expr.rs`), the chained
environment (`src/environment.rs`), the static resolver (`src/resolver.rs`) and
the statement interpreter (`src/interpreter.rs`).

Embedding conventions:
* Rust `f64` numbers are modelled as `Rat`; every numeric literal appearing in
  the concrete programs below is integral, where `f64` and `Rat` arithmetic and
  printing agree.
* Rust `HashMap` values are modelled as association lists with insert-overwrite
  semantics (`mapGet` / `mapInsert`); only the operations the source uses are
  modelled.
* Rust panics (`panic!`, `expect`, out-of-range indexing) are modelled as
  `none` / error results carrying the panic message; a panic aborts the process
  in Rust, so no observable behaviour follows it either way.
* The `Rc<RefCell<Environment>>` sharing of scope frames is modelled twice,
  matching the two ways the source manipulates environments:
  `Environment` is the frame chain exactly as `environment.rs` defines it
  (used to verify `Environment::get` / `Environment::assign` in isolation),
  and the interpreter runs against a heap of frames (`Frame` store) addressed
  by index, which models the aliasing of frames shared between closures and
  blocks.
* The interpreter's `specials` map is only ever used with the single key
  `"return"`, so it is modelled as the `Option LiteralValue` slot `ret`.
* All recursive execution functions take a fuel argument and return an
  out-of-fuel error when it runs out; the source recursion is unbounded.
-/

namespace Dena

/-- Token kinds, from `scanner.rs` (`enum TokenType`). -/
inductive TokenType where
| LeftParen
| RightParen
| LeftBrace
| RightBrace
| Comma
| Dot
| Minus
| Plus
| Semicolon
| Slash
| Star
| Bang
| BangEqual
| Eqaual
| EqualEqual
| Greater
| GreaterEqual
| Less
| LessEqual
| Identifier
| StringLit
| Number
| And
| Class
| Else
| False
| Fun
| For
| If
| Nil
| Or
| Print
| Return
| Super
| This
| True
| Var
| While
| Eof
deriving DecidableEq

/-- Display / Debug rendering of a token type (`impl Display for TokenType`
prints the Rust `Debug` variant name). -/
def ttToString : TokenType → String
| .LeftParen => "LeftParen"
| .RightParen => "RightParen"
| .LeftBrace => "LeftBrace"
| .RightBrace => "RightBrace"
| .Comma => "Comma"
| .Dot => "Dot"
| .Minus => "Minus"
| .Plus => "Plus"
| .Semicolon => "Semicolon"
| .Slash => "Slash"
| .Star => "Star"
| .Bang => "Bang"
| .BangEqual => "BangEqual"
| .Eqaual => "Eqaual"
| .EqualEqual => "EqualEqual"
| .Greater => "Greater"
| .GreaterEqual => "GreaterEqual"
| .Less => "Less"
| .LessEqual => "LessEqual"
| .Identifier => "Identifier"
| .StringLit => "StringLit"
| .Number => "Number"
| .And => "And"
| .Class => "Class"
| .Else => "Else"
| .False => "False"
| .Fun => "Fun"
| .For => "For"
| .If => "If"
| .Nil => "Nil"
| .Or => "Or"
| .Print => "Print"
| .Return => "Return"
| .Super => "Super"
| .This => "This"
| .True => "True"
| .Var => "Var"
| .While => "While"
| .Eof => "Eof"

/-- A scanner token (`struct Token` in `scanner.rs`). The `literal` payload is
omitted: the resolver and interpreter never consult it (expression literals
carry their own `LiteralValue`). -/
structure Token where
  token_type : TokenType
  lexeme : String
  line_number : Nat
deriving DecidableEq

/-- The resolution table `Interpreter::locals`: expression id to scope
distance (`HashMap<usize, usize>`). -/
abbrev Locals := List (Nat × Nat)

/-- HashMap get on the resolution table. -/
def localsGet : Locals → Nat → Option Nat
| [], _ => none
| (k, v) :: rest, id => if k = id then some v else localsGet rest id

/-- HashMap insert on the resolution table (overwrites an existing key;
`Interpreter::resolve`). -/
def localsInsert : Locals → Nat → Nat → Locals
| [], id, steps => [(id, steps)]
| (k, v) :: rest, id, steps =>
  if k = id then (id, steps) :: rest else (k, v) :: localsInsert rest id steps

mutual

/-- Runtime values (`enum LiteralValue` in `expr.rs`). The `fun` closure of a
`Callable` is defunctionalised by `FunImpl`. -/
inductive LiteralValue where
| Number (x : Rat)
| StringValue (s : String)
| True
| False
| Nil
| Callable (name : String) (arity : Nat) (fn : FunImpl)

/-- The closures stored in `Callable::fun`: the native `clock_impl`, the
`fun_impl` closure built by the `Stmt::Function` arm (capturing the defining
frame, the shared resolution table, the parameter tokens, the body and the
function name), and the `fun_impl` closure built by `Expr::AnonFunction`
(which starts from a fresh empty resolution table, per `Interpreter::for_anon`). -/
inductive FunImpl where
| clock
| declared (parent_env : Nat) (parent_locals : List (Nat × Nat))
    (params : List Token) (body : List Stmt) (name_clone : String)
| anon (env : Nat) (arguments : List Token) (body : List Stmt)
    (paren_line : Nat)

/-- Expression nodes (`enum Expr` in `expr.rs`), each carrying its
parse-time id. -/
inductive Expr where
| AnonFunction (id : Nat) (paren : Token) (arguments : List Token)
    (body : List Stmt)
| Assign (id : Nat) (name : Token) (value : Expr)
| Binary (id : Nat) (left : Expr) (operator : Token) (right : Expr)
| Call (id : Nat) (callee : Expr) (paren : Token) (arguments : List Expr)
| Grouping (id : Nat) (expression : Expr)
| Literal (id : Nat) (value : LiteralValue)
| Logical (id : Nat) (left : Expr) (operator : Token) (right : Expr)
| Unary (id : Nat) (operator : Token) (right : Expr)
| Variable (id : Nat) (name : Token)

/-- Statement nodes (`enum Stmt`): the variants of `stmt.rs` plus the
`Function` and `ReturnStmt` variants matched by `interpreter.rs`. -/
inductive Stmt where
| Expression (expression : Expr)
| Print (expression : Expr)
| Var (name : Token) (initializer : Expr)
| Block (statements : List Stmt)
| IfStmt (predicate : Expr) (thn : Stmt) (els : Option Stmt)
| WhileStmt (condition : Expr) (body : Stmt)
| Function (name : Token) (params : List Token) (body : List Stmt)
| ReturnStmt (keyword : Token) (value : Option Expr)

end

/-- Expression id projection (`Expr::get_id`). -/
def Expr.get_id : Expr → Nat
| .AnonFunction id _ _ _ => id
| .Assign id _ _ => id
| .Binary id _ _ _ => id
| .Call id _ _ _ => id
| .Grouping id _ => id
| .Literal id _ => id
| .Logical id _ _ _ => id
| .Unary id _ _ => id
| .Variable id _ => id

/-- Value equality (`impl PartialEq for LiteralValue`): two `Callable`s are
equal iff name and arity match; cross-shape pairs are unequal. -/
def LiteralValue.eq : LiteralValue → LiteralValue → Bool
| .Number x, .Number y => x == y
| .Callable n a _, .Callable n2 a2 _ => n == n2 && a == a2
| .StringValue x, .StringValue y => x == y
| .True, .True => Bool.true
| .False, .False => Bool.true
| .Nil, .Nil => Bool.true
| _, _ => Bool.false

/-- Rendering of a number, matching Rust `f64` `Display` on the integral
values arising in this development. -/
def ratToString (x : Rat) : String :=
  if x.den = 1 then toString x.num else toString x.num ++ "/" ++ toString x.den

/-- Textual form of a value (`LiteralValue::to_string`). -/
def LiteralValue.to_string : LiteralValue → String
| .Number x => ratToString x
| .StringValue x => "\"" ++ x ++ "\""
| .True => "true"
| .False => "false"
| .Nil => "nil"
| .Callable name arity _ => name ++ "/" ++ toString arity

/-- Type name of a value (`LiteralValue::to_type`). -/
def LiteralValue.to_type : LiteralValue → String
| .Number _ => "Number"
| .StringValue _ => "String"
| .True => "Boolean"
| .False => "Boolean"
| .Nil => "nil"
| .Callable _ _ _ => "Callable"

/-- Boolean injection (`LiteralValue::from_bool`). -/
def LiteralValue.from_bool (b : Bool) : LiteralValue :=
  if b then .True else .False

/-- Falsiness (`LiteralValue::is_falsy`); `none` models the panic on
`Callable`. -/
def LiteralValue.is_falsy : LiteralValue → Option LiteralValue
| .Number x => if x = 0 then some .True else some .False
| .StringValue s => if s.length = 0 then some .True else some .False
| .True => some .False
| .False => some .True
| .Nil => some .True
| .Callable _ _ _ => none

/-- Truthiness (`LiteralValue::is_truthy`); `none` models the panic on
`Callable`. -/
def LiteralValue.is_truthy : LiteralValue → Option LiteralValue
| .Number x => if x = 0 then some .False else some .True
| .StringValue s => if s.length = 0 then some .False else some .True
| .True => some .True
| .False => some .False
| .Nil => some .False
| .Callable _ _ _ => none

/-- One frame's `values` map (`HashMap<String, LiteralValue>`). -/
abbrev Bindings := List (String × LiteralValue)

/-- HashMap get on a bindings map. -/
def mapGet : Bindings → String → Option LiteralValue
| [], _ => none
| (k, v) :: rest, name => if k = name then some v else mapGet rest name

/-- HashMap insert on a bindings map: overwrites an existing key and returns
the previous value, like Rust `HashMap::insert`. -/
def mapInsert : Bindings → String → LiteralValue → Bindings × Option LiteralValue
| [], name, value => ([(name, value)], none)
| (k, v) :: rest, name, value =>
  if k = name then ((name, value) :: rest, some v)
  else
    let r := mapInsert rest name value
    ((k, v) :: r.1, r.2)

/-- The native clock value registered by `get_globals`. Reading the system
time is not representable here; the claims below never invoke it. -/
def clockCallable : LiteralValue := .Callable "clock" 0 .clock

/-- Initial bindings of every `Environment::new()` frame (`get_globals`). -/
def get_globals : Bindings := [("clock", clockCallable)]

/-- The chained environment exactly as `environment.rs` defines it: a frame's
bindings plus an optional enclosing frame. -/
inductive Environment where
| mk (values : Bindings) (enclosing : Option Environment)

/-- Bindings of an environment's own frame. -/
def Environment.values : Environment → Bindings
| .mk values _ => values

/-- Enclosing chain of an environment. -/
def Environment.enclosing : Environment → Option Environment
| .mk _ enclosing => enclosing

/-- `Environment::get`: with no distance, walk to the root frame and look the
name up there; with distance `d`, hop exactly `d` parents and look up in that
frame. The outer `none` models the panic when a hop is requested past the
root. -/
def Environment.get : Environment → String → Option Nat → Option (Option LiteralValue)
| .mk values enclosing, name, none =>
  match enclosing with
  | none => some (mapGet values name)
  | some env => env.get name none
| .mk values _, name, some 0 => some (mapGet values name)
| .mk _ enclosing, name, some (d+1) =>
  match enclosing with
  | none => none
  | some env => env.get name (some d)

/-- `Environment::assign`: with no distance, walk to the root frame and insert
there, returning whether the key pre-existed; with distance `d`, hop `d`
parents, insert there and return `true` unconditionally (the recursive result
for `d > 0` is discarded by the source). The outer `none` models the panic
when a hop is requested past the root. -/
def Environment.assign : Environment → String → LiteralValue → Option Nat →
    Option (Environment × Bool)
| .mk values enclosing, name, value, none =>
  match enclosing with
  | some env =>
    match env.assign name value none with
    | none => none
    | some (env2, b) => some (.mk values (some env2), b)
  | none =>
    let r := mapInsert values name value
    some (.mk r.1 none, r.2.isSome)
| .mk values enclosing, name, value, some 0 =>
  some (.mk (mapInsert values name value).1 enclosing, Bool.true)
| .mk values enclosing, name, value, some (d+1) =>
  match enclosing with
  | none => none
  | some env =>
    match env.assign name value (some d) with
    | none => none
    | some (env2, _) => some (.mk values (some env2), Bool.true)

/-- Number of frames in a chain. -/
def Environment.depth : Environment → Nat
| .mk _ none => 1
| .mk _ (some env) => 1 + env.depth

/-- Bindings of the frame exactly `d` parent hops away, if it exists. -/
def Environment.frameAt : Environment → Nat → Option Bindings
| .mk values _, 0 => some values
| .mk _ none, _+1 => none
| .mk _ (some env), d+1 => env.frameAt d

/-- Bindings of the root frame (the unique frame with no parent). -/
def Environment.rootValues : Environment → Bindings
| .mk values none => values
| .mk _ (some env) => env.rootValues
/-- One frame of the interpreter's runtime frame heap. The interpreter shares
frames through reference-counted cells; here every frame lives in a store (a
list indexed by allocation order) and `enclosing` is the index of the parent
frame, so a mutation through one alias is seen through all others. -/
structure Frame where
  values : Bindings
  enclosing : Option Nat

/-- The frame heap. Frames are only ever appended (the source never frees a
frame while the interpreter can still reach it), so an `enclosing` index is
always smaller than the index of the frame holding it. -/
abbrev Frames := List Frame

/-- The store-level counterpart of `Environment::get`, walking `enclosing`
indexes instead of nested references. The walk is fuel-bounded (callers pass
`fid + 1`, enough for any well-formed store, where parent indexes strictly
decrease); `none` models both panics of the source (`get` past the root) and
a dangling index. -/
def frameGet : Nat → Frames → Nat → String → Option Nat → Option (Option LiteralValue)
| 0, _, _, _, _ => none
| fuel+1, frames, fid, name, distance =>
  match frames[fid]? with
  | none => none
  | some fr =>
    match distance with
    | none =>
      match fr.enclosing with
      | none => some (mapGet fr.values name)
      | some p => frameGet fuel frames p name none
    | some 0 => some (mapGet fr.values name)
    | some (d+1) =>
      match fr.enclosing with
      | none => none
      | some p => frameGet fuel frames p name (some d)

/-- The store-level counterpart of `Environment::assign` (same addressing as
`frameGet`; mutates the addressed frame in the store). With no distance the
root frame is mutated and the result reports whether the key pre-existed;
with distance `d` the frame `d` hops up is mutated and the result is `true`
unconditionally (the source discards the recursive result for `d > 0`).
`none` models the panic when a hop is requested past the root. -/
def frameAssign : Nat → Frames → Nat → String → LiteralValue → Option Nat → Option (Frames × Bool)
| 0, _, _, _, _, _ => none
| fuel+1, frames, fid, name, value, distance =>
  match frames[fid]? with
  | none => none
  | some fr =>
    match distance with
    | none =>
      match fr.enclosing with
      | some p => frameAssign fuel frames p name value none
      | none =>
        let r := mapInsert fr.values name value
        some (frames.set fid ⟨r.1, none⟩, r.2.isSome)
    | some 0 =>
      some (frames.set fid ⟨(mapInsert fr.values name value).1, fr.enclosing⟩, Bool.true)
    | some (d+1) =>
      match fr.enclosing with
      | none => none
      | some p =>
        match frameAssign fuel frames p name value (some d) with
        | none => none
        | some (frames2, _) => some (frames2, Bool.true)

/-- `Environment::define` on the store: insert into the current frame only. -/
def defineFrame (frames : Frames) (fid : Nat) (name : String) (value : LiteralValue) : Frames :=
  match frames[fid]? with
  | none => frames
  | some fr => frames.set fid ⟨(mapInsert fr.values name value).1, fr.enclosing⟩

/-- Parameter binding loop of `fun_impl`: define each parameter name to the
matching argument value in the fresh call frame (arity was checked by the
caller, so the two lists have equal length at every use). -/
def defineParams (frames : Frames) (fid : Nat) : List Token → List LiteralValue → Frames
| p :: ps, a :: rest => defineParams (defineFrame frames fid p.lexeme a) fid ps rest
| _, _ => frames

/-- Mutable interpreter world threaded through evaluation: the frame heap and
the text printed so far (one entry per print). -/
structure EState where
  frames : Frames
  output : List String

/-- Result of `Interpreter::interpret`: the world, the current-frame pointer
(`self.environment`), the return slot (`self.specials["return"]`) and the
`Result<(), String>` outcome. -/
structure IResult where
  st : EState
  fid : Nat
  ret : Option LiteralValue
  err : Option String

/-- `Interpreter::get_distance`: resolution-table lookup by expression id. -/
def getDistance (locals : Locals) (e : Expr) : Option Nat :=
  localsGet locals e.get_id

/-- The `Expr::evaluate` arm for `Binary` once both operands are evaluated,
with the match arms in source order: the cross string/number error arms come
before the generic equality arms, exactly as in `expr.rs`. -/
def evalBinaryOp (left : LiteralValue) (t : TokenType) (right : LiteralValue) :
    Except String LiteralValue :=
  match left, t, right with
  | .Number x, .Plus, .Number y => .ok (.Number (x + y))
  | .Number x, .Minus, .Number y => .ok (.Number (x - y))
  | .Number x, .Star, .Number y => .ok (.Number (x * y))
  | .Number x, .Slash, .Number y => .ok (.Number (x / y))
  | .Number x, .Greater, .Number y => .ok (.from_bool (decide (x > y)))
  | .Number x, .GreaterEqual, .Number y => .ok (.from_bool (decide (x ≥ y)))
  | .Number x, .Less, .Number y => .ok (.from_bool (decide (x < y)))
  | .Number x, .LessEqual, .Number y => .ok (.from_bool (decide (x ≤ y)))
  | .StringValue _, op, .Number _ =>
    .error (ttToString op ++ " is not defined for string and number")
  | .Number _, op, .StringValue _ =>
    .error (ttToString op ++ " is not defined for string and number")
  | .StringValue s1, .Plus, .StringValue s2 => .ok (.StringValue (s1 ++ s2))
  | x, .BangEqual, y => .ok (.from_bool (!(x.eq y)))
  | x, .EqualEqual, y => .ok (.from_bool (x.eq y))
  | .StringValue s1, .Greater, .StringValue s2 => .ok (.from_bool (decide (s2 < s1)))
  | .StringValue s1, .GreaterEqual, .StringValue s2 => .ok (.from_bool (decide (s2 ≤ s1)))
  | .StringValue s1, .Less, .StringValue s2 => .ok (.from_bool (decide (s1 < s2)))
  | .StringValue s1, .LessEqual, .StringValue s2 => .ok (.from_bool (decide (s1 ≤ s2)))
  | x, ttype, y =>
    .error (ttToString ttype ++ " is not implemented for operands " ++
      x.to_string ++ " and " ++ y.to_string)

mutual

/-- `Expr::evaluate`: evaluates an expression against the current frame `fid`,
passing the single `distance` looked up for the enclosing statement down to
every sub-expression, exactly as the source does. -/
def evaluate : Nat → Locals → EState → Nat → Option Nat → Expr → EState × Except String LiteralValue
| 0, _, st, _, _, _ => (st, .error "out of fuel")
| fuel+1, locals, st, fid, distance, e =>
  match e with
  | .AnonFunction _ paren arguments body =>
    (st, .ok (.Callable "anon_function" arguments.length
      (.anon fid arguments body paren.line_number)))
  | .Assign _ name value =>
    match evaluate fuel locals st fid distance value with
    | (st1, .error err) => (st1, .error err)
    | (st1, .ok new_value) =>
      match frameAssign (fid+1) st1.frames fid name.lexeme new_value distance with
      | none => (st1, .error "Tried to define a variable in a too deep level")
      | some (frames2, assign_success) =>
        if assign_success then ({ st1 with frames := frames2 }, .ok new_value)
        else ({ st1 with frames := frames2 },
          .error ("Variable " ++ name.lexeme ++ " has not been declared"))
  | .Variable _ name =>
    match frameGet (fid+1) st.frames fid name.lexeme distance with
    | none => (st, .error "Tried to resolve a variable that was defined deeper than the current environment depth")
    | some none => (st, .error ("Variable '" ++ name.lexeme ++ "' has not been declared"))
    | some (some value) => (st, .ok value)
  | .Call _ callee _ arguments =>
    match evaluate fuel locals st fid distance callee with
    | (st1, .error err) => (st1, .error err)
    | (st1, .ok callable) =>
      match callable with
      | .Callable name arity fn =>
        if arguments.length = arity then
          match evalArguments fuel locals st1 fid distance arguments with
          | (st2, .error err) => (st2, .error err)
          | (st2, .ok arg_vals) => callFunction fuel st2 fn arg_vals
        else
          (st1, .error ("Callable " ++ name ++ " expected " ++ toString arity ++
            " arguments but got " ++ toString arguments.length))
      | other => (st1, .error (other.to_type ++ " is not callable"))
  | .Literal _ value => (st, .ok value)
  | .Logical _ left operator right =>
    match operator.token_type with
    | .Or =>
      match evaluate fuel locals st fid distance left with
      | (st1, .error err) => (st1, .error err)
      | (st1, .ok lhs_value) =>
        match lhs_value.is_truthy with
        | none => (st1, .error "Can not use callable as a truthy value")
        | some lhs_true =>
          if lhs_true.eq .True then (st1, .ok lhs_value)
          else evaluate fuel locals st1 fid distance right
    | .And =>
      match evaluate fuel locals st fid distance left with
      | (st1, .error err) => (st1, .error err)
      | (st1, .ok lhs_value) =>
        match lhs_value.is_truthy with
        | none => (st1, .error "Can not use callable as a truthy value")
        | some lhs_true =>
          if lhs_true.eq .False then (st1, .ok lhs_true)
          else evaluate fuel locals st1 fid distance right
    | ttype => (st, .error ("Invalid token in logical expression: " ++ ttToString ttype))
  | .Grouping _ expression => evaluate fuel locals st fid distance expression
  | .Unary _ operator right =>
    match evaluate fuel locals st fid distance right with
    | (st1, .error err) => (st1, .error err)
    | (st1, .ok rv) =>
      match rv, operator.token_type with
      | .Number x, .Minus => (st1, .ok (.Number (-x)))
      | _, .Minus => (st1, .error ("Minus not implemented for " ++ rv.to_type))
      | any, .Bang =>
        match any.is_falsy with
        | none => (st1, .error "Cannot use Callable as a falsy value")
        | some r => (st1, .ok r)
      | _, ttype => (st1, .error (ttToString ttype ++ " is not a valid unary operator"))
  | .Binary _ left operator right =>
    match evaluate fuel locals st fid distance left with
    | (st1, .error err) => (st1, .error err)
    | (st1, .ok lv) =>
      match evaluate fuel locals st1 fid distance right with
      | (st2, .error err) => (st2, .error err)
      | (st2, .ok rv) => (st2, evalBinaryOp lv operator.token_type rv)
termination_by structural fuel => fuel

/-- Left-to-right evaluation of a call's argument list. -/
def evalArguments : Nat → Locals → EState → Nat → Option Nat → List Expr → EState × Except String (List LiteralValue)
| 0, _, st, _, _, _ => (st, .error "out of fuel")
| _+1, _, st, _, _, [] => (st, .ok [])
| fuel+1, locals, st, fid, distance, arg :: rest =>
  match evaluate fuel locals st fid distance arg with
  | (st1, .error err) => (st1, .error err)
  | (st1, .ok v) =>
    match evalArguments fuel locals st1 fid distance rest with
    | (st2, .error err) => (st2, .error err)
    | (st2, .ok vs) => (st2, .ok (v :: vs))
termination_by structural fuel => fuel

/-- Invocation of a `Callable`'s stored closure (`fun(&arg_vals)`). A
declared function runs `Interpreter::for_closure` (fresh globals frame whose
parent is the captured defining frame, the captured resolution table, fresh
return slot); an anonymous function runs `Interpreter::for_anon` (same frame
shape but a fresh empty resolution table). The native clock is modelled as
returning `Number 0`: the system time is not representable, and no claim
below invokes it. -/
def callFunction : Nat → EState → FunImpl → List LiteralValue → EState × Except String LiteralValue
| 0, st, _, _ => (st, .error "out of fuel")
| fuel+1, st, fn, args =>
  match fn with
  | .clock => (st, .ok (.Number 0))
  | .declared parent_env parent_locals params body name_clone =>
    let clos_fid := st.frames.length
    let frames2 := defineParams (st.frames ++ [⟨get_globals, some parent_env⟩]) clos_fid params args
    bodyLoop fuel parent_locals ("Evaluating failed inside " ++ name_clone)
      { st with frames := frames2 } clos_fid none body
  | .anon env arguments body paren_line =>
    let anon_fid := st.frames.length
    let frames2 := defineParams (st.frames ++ [⟨get_globals, some env⟩]) anon_fid arguments args
    bodyLoop fuel []
      ("Evaluating failed inside anon function at line " ++ toString paren_line)
      { st with frames := frames2 } anon_fid none body
termination_by structural fuel => fuel

/-- The statement loop of `fun_impl`: interpret the body one statement at a
time, panicking (`expect`) on an error, and returning as soon as the
`"return"` slot is set after a statement. Falls through to `Nil`. -/
def bodyLoop : Nat → Locals → String → EState → Nat → Option LiteralValue → List Stmt → EState × Except String LiteralValue
| 0, _, _, st, _, _, _ => (st, .error "out of fuel")
| _+1, _, _, st, _, _, [] => (st, .ok .Nil)
| fuel+1, locals, panic_msg, st, fid, ret, stmt :: rest =>
  match interpret fuel locals st fid ret [stmt] with
  | ⟨st1, _, _, some _⟩ => (st1, .error panic_msg)
  | ⟨st1, fid1, ret1, none⟩ =>
    match ret1 with
    | some value => (st1, .ok value)
    | none => bodyLoop fuel locals panic_msg st1 fid1 ret1 rest
termination_by structural fuel => fuel

/-- The `while` loop of the `Stmt::WhileStmt` arm: while the last condition
value is truthy, interpret the body and re-evaluate the condition. Note that
the loop itself never looks at the return slot. -/
def whileLoop : Nat → Locals → EState → Nat → Option LiteralValue → Expr → Option Nat → Stmt → LiteralValue → IResult
| 0, _, st, fid, ret, _, _, _, _ => ⟨st, fid, ret, some "out of fuel"⟩
| fuel+1, locals, st, fid, ret, condition, distance, body, flag =>
  match flag.is_truthy with
  | none => ⟨st, fid, ret, some "Can not use callable as a truthy value"⟩
  | some tv =>
    if tv.eq .True then
      match interpret fuel locals st fid ret [body] with
      | ⟨st1, fid1, ret1, some err⟩ => ⟨st1, fid1, ret1, some err⟩
      | ⟨st1, fid1, ret1, none⟩ =>
        match evaluate fuel locals st1 fid1 distance condition with
        | (st2, .error err) => ⟨st2, fid1, ret1, some err⟩
        | (st2, .ok flag2) => whileLoop fuel locals st2 fid1 ret1 condition distance body flag2
    else ⟨st, fid, ret, none⟩
termination_by structural fuel => fuel

/-- `Interpreter::interpret`: execute a statement list against the current
frame `fid` with return slot `ret`. An error from any statement aborts the
remaining list (the source's `?`); the return slot is NOT consulted between
statements — only `bodyLoop` (the function-call boundary) checks it. -/
def interpret : Nat → Locals → EState → Nat → Option LiteralValue → List Stmt → IResult
| 0, _, st, fid, ret, _ => ⟨st, fid, ret, some "out of fuel"⟩
| _+1, _, st, fid, ret, [] => ⟨st, fid, ret, none⟩
| fuel+1, locals, st, fid, ret, stmt :: rest =>
  match stmt with
  | .Expression expression =>
    match evaluate fuel locals st fid (getDistance locals expression) expression with
    | (st1, .error err) => ⟨st1, fid, ret, some err⟩
    | (st1, .ok _) => interpret fuel locals st1 fid ret rest
  | .Print expression =>
    match evaluate fuel locals st fid (getDistance locals expression) expression with
    | (st1, .error err) => ⟨st1, fid, ret, some err⟩
    | (st1, .ok value) =>
      interpret fuel locals { st1 with output := st1.output ++ [value.to_string] } fid ret rest
  | .Var name initializer =>
    match evaluate fuel locals st fid (getDistance locals initializer) initializer with
    | (st1, .error err) => ⟨st1, fid, ret, some err⟩
    | (st1, .ok value) =>
      interpret fuel locals { st1 with frames := defineFrame st1.frames fid name.lexeme value } fid ret rest
  | .Block statements =>
    match interpret fuel locals { st with frames := st.frames ++ [⟨get_globals, some fid⟩] }
        st.frames.length ret statements with
    | ⟨st2, _, ret2, some err⟩ => ⟨st2, fid, ret2, some err⟩
    | ⟨st2, _, ret2, none⟩ => interpret fuel locals st2 fid ret2 rest
  | .IfStmt predicate thn els =>
    match evaluate fuel locals st fid (getDistance locals predicate) predicate with
    | (st1, .error err) => ⟨st1, fid, ret, some err⟩
    | (st1, .ok truth_value) =>
      match truth_value.is_truthy with
      | none => ⟨st1, fid, ret, some "Can not use callable as a truthy value"⟩
      | some tv =>
        if tv.eq .True then
          match interpret fuel locals st1 fid ret [thn] with
          | ⟨st2, fid2, ret2, some err⟩ => ⟨st2, fid2, ret2, some err⟩
          | ⟨st2, fid2, ret2, none⟩ => interpret fuel locals st2 fid2 ret2 rest
        else
          match els with
          | some els_stmt =>
            match interpret fuel locals st1 fid ret [els_stmt] with
            | ⟨st2, fid2, ret2, some err⟩ => ⟨st2, fid2, ret2, some err⟩
            | ⟨st2, fid2, ret2, none⟩ => interpret fuel locals st2 fid2 ret2 rest
          | none => interpret fuel locals st1 fid ret rest
  | .WhileStmt condition body =>
    match evaluate fuel locals st fid (getDistance locals condition) condition with
    | (st1, .error err) => ⟨st1, fid, ret, some err⟩
    | (st1, .ok flag) =>
      match whileLoop fuel locals st1 fid ret condition (getDistance locals condition) body flag with
      | ⟨st2, fid2, ret2, some err⟩ => ⟨st2, fid2, ret2, some err⟩
      | ⟨st2, fid2, ret2, none⟩ => interpret fuel locals st2 fid2 ret2 rest
  | .Function name params body =>
    let callable : LiteralValue :=
      .Callable name.lexeme params.length (.declared fid locals params body name.lexeme)
    interpret fuel locals
      { st with frames := defineFrame st.frames fid name.lexeme callable } fid ret rest
  | .ReturnStmt _ value =>
    match value with
    | some v =>
      match evaluate fuel locals st fid (getDistance locals v) v with
      | (st1, .error err) => ⟨st1, fid, ret, some err⟩
      | (st1, .ok eval_val) => interpret fuel locals st1 fid (some eval_val) rest
    | none => interpret fuel locals st fid (some .Nil) rest
termination_by structural fuel => fuel

end

/-- One resolver scope frame: name to "ready" flag (`HashMap<String, bool>`). -/
abbrev Scope := List (String × Bool)

/-- HashMap get on a scope frame. -/
def scopeGet : Scope → String → Option Bool
| [], _ => none
| (k, v) :: rest, name => if k = name then some v else scopeGet rest name

/-- HashMap insert on a scope frame (overwrites an existing key). -/
def scopeInsert : Scope → String → Bool → Scope
| [], name, b => [(name, b)]
| (k, v) :: rest, name, b =>
  if k = name then (name, b) :: rest else (k, v) :: scopeInsert rest name b

/-- Resolver state: the scope stack plus the interpreter's resolution table
the resolver writes into (`Resolver { interpreter, scopes }`). The source
keeps `scopes` as a `Vec` with the innermost scope last and records
distance `stack size - 1 - i` for `Vec` index `i`; here the stack is kept
innermost-first, so the recorded distance is simply the list index. -/
structure RState where
  scopes : List Scope
  locals : Locals

/-- `Resolver::begin_scope`: push a fresh innermost scope. -/
def begin_scope (st : RState) : RState :=
  { st with scopes := [] :: st.scopes }

/-- `Resolver::end_scope`: pop the innermost scope; popping an empty stack is
the source's "Stack underflow" panic. -/
def end_scope (st : RState) : Except String RState :=
  match st.scopes with
  | [] => .error "Stack underflow"
  | _ :: rest => .ok { st with scopes := rest }

/-- `Resolver::declare`: mark the name not-ready in the innermost scope;
no-op at global scope (empty stack). -/
def declare (st : RState) (name : Token) : RState :=
  match st.scopes with
  | [] => st
  | s :: rest => { st with scopes := scopeInsert s name.lexeme Bool.false :: rest }

/-- `Resolver::define`: mark the name ready in the innermost scope; no-op at
global scope. -/
def define (st : RState) (name : Token) : RState :=
  match st.scopes with
  | [] => st
  | s :: rest => { st with scopes := scopeInsert s name.lexeme Bool.true :: rest }

/-- The declare-and-define loop over a function's parameters inside
`resolve_function_helper`. -/
def declare_params (st : RState) : List Token → RState
| [] => st
| p :: rest => declare_params (define (declare st p) p) rest

/-- Index of the innermost scope containing the name: the distance the
source computes by scanning its `Vec` from the top. -/
def findScopeIdx : List Scope → String → Option Nat
| [], _ => none
| s :: rest, name =>
  if (scopeGet s name).isSome then some 0
  else (findScopeIdx rest name).map (· + 1)

/-- `Resolver::resolve_local`: find the innermost scope containing the name;
record the distance in the interpreter's table against `resolve_id` when one
was passed down, else against the expression's own id; record nothing when no
open scope contains the name (assumed global). -/
def resolve_local (st : RState) (e : Expr) (name : Token) (resolve_id : Option Nat) :
    Except String RState :=
  match findScopeIdx st.scopes name.lexeme with
  | none => .ok st
  | some d =>
    let id_to_use := match resolve_id with
      | none => e.get_id
      | some id => id
    .ok { st with locals := localsInsert st.locals id_to_use d }

/-- `Resolver::resolve_expr_var`: for a variable read, fail if the innermost
scope holds the same name still not-ready (a read inside its own
initializer), else resolve it locally; for a call, resolve the callee
variable against the call expression itself (panic on any other callee). -/
def resolve_expr_var (st : RState) (e : Expr) (resolve_id : Option Nat) :
    Except String RState :=
  match e with
  | .Variable _ name =>
    match st.scopes with
    | [] => resolve_local st e name resolve_id
    | s :: _ =>
      match scopeGet s name.lexeme with
      | some Bool.false => .error "Can't read local variable in its own initializer"
      | _ => resolve_local st e name resolve_id
  | .Call _ callee _ _ =>
    match callee with
    | .Variable _ name => resolve_local st e name resolve_id
    | _ => .error "Wrong type in resolve_expr_var"
  | _ => .error "Wrong type in resolve_expr_var"

mutual

/-- `Resolver::resolve` over one statement. The `Block`, `Var`, `Function`
and `IfStmt` arms inline the bodies of `resolve_block`, `resolve_var`,
`resolve_function` and `resolve_if_stmt`. -/
def resolve : Nat → RState → Stmt → Except String RState
| 0, _, _ => .error "resolver out of fuel"
| fuel+1, st, stmt =>
  match stmt with
  | .Block statements =>
    match resolve_many fuel (begin_scope st) statements with
    | .error err => .error err
    | .ok st2 => end_scope st2
  | .Var name initializer =>
    match resolve_expr fuel (declare st name) initializer (some initializer.get_id) with
    | .error err => .error err
    | .ok st2 => .ok (define st2 name)
  | .Function name params body =>
    resolve_function_helper fuel (define (declare st name) name) params body none
  | .Expression expression => resolve_expr fuel st expression none
  | .IfStmt predicate thn els =>
    match resolve_expr fuel st predicate none with
    | .error err => .error err
    | .ok st1 =>
      match resolve fuel st1 thn with
      | .error err => .error err
      | .ok st2 =>
        match els with
        | some els_stmt => resolve fuel st2 els_stmt
        | none => .ok st2
  | .Print expression => resolve_expr fuel st expression none
  | .ReturnStmt _ none => .ok st
  | .ReturnStmt _ (some value) => resolve_expr fuel st value none
  | .WhileStmt condition body =>
    match resolve_expr fuel st condition (some condition.get_id) with
    | .error err => .error err
    | .ok st1 => resolve fuel st1 body
termination_by structural fuel => fuel

/-- `Resolver::resolve_many`: resolve a statement list in order, stopping at
the first error. -/
def resolve_many : Nat → RState → List Stmt → Except String RState
| 0, _, _ => .error "resolver out of fuel"
| _+1, st, [] => .ok st
| fuel+1, st, stmt :: rest =>
  match resolve fuel st stmt with
  | .error err => .error err
  | .ok st1 => resolve_many fuel st1 rest
termination_by structural fuel => fuel

/-- `Resolver::resolve_function_helper`: open a scope, declare and define the
parameters, resolve the body, close the scope. -/
def resolve_function_helper : Nat → RState → List Token → List Stmt → Option Nat → Except String RState
| 0, _, _, _, _ => .error "resolver out of fuel"
| fuel+1, st, params, body, _resolve_id =>
  match resolve_many fuel (declare_params (begin_scope st) params) body with
  | .error err => .error err
  | .ok st2 => end_scope st2
termination_by structural fuel => fuel

/-- `Resolver::resolve_expr`: resolve an expression, passing the override
`resolve_id` unchanged to every sub-expression. -/
def resolve_expr : Nat → RState → Expr → Option Nat → Except String RState
| 0, _, _, _ => .error "resolver out of fuel"
| fuel+1, st, e, resolve_id =>
  match e with
  | .Variable _ _ => resolve_expr_var st e resolve_id
  | .Assign _ name value =>
    match resolve_expr fuel st value resolve_id with
    | .error err => .error err
    | .ok st1 => resolve_local st1 e name resolve_id
  | .Binary _ left _ right =>
    match resolve_expr fuel st left resolve_id with
    | .error err => .error err
    | .ok st1 => resolve_expr fuel st1 right resolve_id
  | .Call _ _ _ arguments =>
    match resolve_expr_var st e resolve_id with
    | .error err => .error err
    | .ok st1 => resolve_exprs fuel st1 arguments resolve_id
  | .Grouping _ expression => resolve_expr fuel st expression resolve_id
  | .Literal _ _ => .ok st
  | .Logical _ left _ right =>
    match resolve_expr fuel st left resolve_id with
    | .error err => .error err
    | .ok st1 => resolve_expr fuel st1 right resolve_id
  | .Unary _ _ right => resolve_expr fuel st right resolve_id
  | .AnonFunction _ _ arguments body =>
    resolve_function_helper fuel st arguments body resolve_id
termination_by structural fuel => fuel

/-- Resolution loop over a call's argument list. -/
def resolve_exprs : Nat → RState → List Expr → Option Nat → Except String RState
| 0, _, _, _ => .error "resolver out of fuel"
| _+1, st, [], _ => .ok st
| fuel+1, st, arg :: rest, resolve_id =>
  match resolve_expr fuel st arg resolve_id with
  | .error err => .error err
  | .ok st1 => resolve_exprs fuel st1 rest resolve_id
termination_by structural fuel => fuel

end

/-- The initial frame heap of `Interpreter::new()`: one global frame holding
the native bindings. -/
def initialFrames : Frames := [⟨get_globals, none⟩]

/-- The `run` pipeline of `main.rs` from a parsed statement list onward:
resolve with a fresh resolver writing into a fresh interpreter's table, then
interpret with that table. Returns the printed output and the error outcome. -/
def runOutput (fuel : Nat) (stmts : List Stmt) : List String × Option String :=
  match resolve_many fuel ⟨[], []⟩ stmts with
  | .error err => ([], some err)
  | .ok rst =>
    let r := interpret fuel rst.locals ⟨initialFrames, []⟩ 0 none stmts
    (r.st.output, r.err)

/-- Bounded well-formedness of the frame heap: every parent index is smaller
than the index of the frame holding it. This holds of every heap the
interpreter builds, since frames are only appended with an existing frame as
parent. -/
def wfFrom : Nat → List Frame → Bool
| _, [] => Bool.true
| i, fr :: rest =>
  (match fr.enclosing with
   | none => Bool.true
   | some p => decide (p < i)) && wfFrom (i+1) rest

/-- Well-formedness of a frame heap, from index 0. -/
def wfFrames (frames : Frames) : Bool := wfFrom 0 frames

/-- The root index reached by following `enclosing` from `fid`: the frame the
distance-free mode of `Environment::get` and `Environment::assign` addresses. -/
def rootFid : Nat → Frames → Nat → Option Nat
| 0, _, _ => none
| fuel+1, frames, fid =>
  match frames[fid]? with
  | none => none
  | some fr =>
    match fr.enclosing with
    | none => some fid
    | some p => rootFid fuel frames p

/-- The shadowing program of the spec:
`{ var a = 1; { var a = 2; print a; } print a; }`. -/
def shadowProg : List Stmt :=
  [.Block
    [.Var (Token.mk .Identifier "a" 1) (.Literal 100 (.Number 1)),
     .Block
       [.Var (Token.mk .Identifier "a" 2) (.Literal 101 (.Number 2)),
        .Print (.Variable 1 (Token.mk .Identifier "a" 2))],
     .Print (.Variable 2 (Token.mk .Identifier "a" 3))]]

/-- A program whose function body raises the return signal in the middle of a
while-loop iteration, with a statement of the same block after the `return`:
`var i = 1; fun f() { while (i) { i = 0; return 1; print 2; } } print f();`. -/
def returnInWhileProg : List Stmt :=
  [.Var (Token.mk .Identifier "i" 1) (.Literal 100 (.Number 1)),
   .Function (Token.mk .Identifier "f" 2) []
     [.WhileStmt (.Variable 1 (Token.mk .Identifier "i" 2))
       (.Block
         [.Expression (.Assign 2 (Token.mk .Identifier "i" 3) (.Literal 101 (.Number 0))),
          .ReturnStmt (Token.mk .Return "return" 4) (some (.Literal 102 (.Number 1))),
          .Print (.Literal 103 (.Number 2))])],
   .Print (.Call 3 (.Variable 4 (Token.mk .Identifier "f" 6)) (Token.mk .LeftParen "(" 6) [])]

/-- Interpreting an empty statement list leaves the current-frame pointer
unchanged. -/
theorem interpret_nil_fid : ∀ fuel locals st fid ret,
    (interpret fuel locals st fid ret []).fid = fid := by
  intro fuel locals st fid ret
  cases fuel <;> rfl

/-- C9: executing a `Block` statement creates a frame whose parent is the
current frame, runs the inner statements against it, and restores the
previous current-frame pointer on every exit path: for every fuel, resolution
table, world, starting frame, return slot and block body — whether the inner
statements completed normally or propagated an error (including running out
of fuel), the interpreter's current-frame pointer after the block is the one
from before it. -/
theorem c9_block_restores : ∀ fuel locals st fid ret statements,
    (interpret fuel locals st fid ret [Stmt.Block statements]).fid = fid := by
  intro fuel locals st fid ret statements
  cases fuel with
  | zero => rfl
  | succ f =>
    simp only [interpret]
    split
    · rfl
    · exact interpret_nil_fid ..

/-- Extraction form of `wfFrom`: a parent index seen at list position `i`
counted from `k` is below `k + i`. -/
theorem wfFrom_spec : ∀ (frames : List Frame) (k i : Nat) (fr : Frame) (p : Nat),
    wfFrom k frames = Bool.true → frames[i]? = some fr → fr.enclosing = some p →
    p < k + i := by
  intro frames
  induction frames with
  | nil => intro k i fr p _ h2 _; simp at h2
  | cons hd tl ih =>
    intro k i fr p h1 h2 h3
    simp only [wfFrom, Bool.and_eq_true] at h1
    cases i with
    | zero =>
      simp only [List.getElem?_cons_zero, Option.some.injEq] at h2
      subst h2
      rw [h3] at h1
      have := h1.1
      simp at this
      omega
    | succ j =>
      simp only [List.getElem?_cons_succ] at h2
      have := ih (k+1) j fr p h1.2 h2 h3
      omega

/-- Second component of `mapInsert` is the previous binding, as `HashMap`'s
insert reports. -/
theorem mapInsert_snd : ∀ (m : Bindings) (k : String) (v : LiteralValue),
    (mapInsert m k v).2 = mapGet m k := by
  intro m k v
  induction m with
  | nil => rfl
  | cons hd tl ih =>
    obtain ⟨k2, v2⟩ := hd
    by_cases h : k2 = k
    · simp [mapInsert, mapGet, h]
    · simp [mapInsert, mapGet, h, ih]

/-- After `mapInsert`, the inserted key is bound to the inserted value. -/
theorem mapGet_insert_self : ∀ (m : Bindings) (k : String) (v : LiteralValue),
    mapGet (mapInsert m k v).1 k = some v := by
  intro m k v
  induction m with
  | nil => simp [mapInsert, mapGet]
  | cons hd tl ih =>
    obtain ⟨k2, v2⟩ := hd
    by_cases h : k2 = k
    · simp [mapInsert, mapGet, h]
    · simp [mapInsert, mapGet, h, ih]

/-- Distance-free `frameAssign` on a well-formed heap walks to the root frame
and inserts there, reporting whether the key pre-existed in the root frame;
no other frame changes. -/
theorem frameAssign_global : ∀ (fuel : Nat) (frames : Frames) (fid : Nat)
    (name : String) (value : LiteralValue),
    wfFrames frames = Bool.true → fid < frames.length → fid < fuel →
    ∃ r rootFr, rootFid fuel frames fid = some r ∧ frames[r]? = some rootFr
      ∧ rootFr.enclosing = none
      ∧ frameAssign fuel frames fid name value none
          = some (frames.set r ⟨(mapInsert rootFr.values name value).1, none⟩,
                  (mapGet rootFr.values name).isSome) := by
  intro fuel
  induction fuel with
  | zero => intro frames fid name value _ _ h3; omega
  | succ f ih =>
    intro frames fid name value h1 h2 h3
    have hfr : frames[fid]? = some frames[fid] := List.getElem?_eq_getElem h2
    cases henc : frames[fid].enclosing with
    | none =>
      refine ⟨fid, frames[fid], ?_, hfr, henc, ?_⟩
      · simp [rootFid, hfr, henc]
      · simp [frameAssign, hfr, henc, mapInsert_snd]
    | some p =>
      have hp : p < fid := by
        have := wfFrom_spec frames 0 fid frames[fid] p h1 hfr henc
        omega
      have hplen : p < frames.length := by omega
      have hpf : p < f := by omega
      obtain ⟨r, rootFr, hr1, hr2, hr3, hr4⟩ := ih frames p name value h1 hplen hpf
      refine ⟨r, rootFr, ?_, hr2, hr3, ?_⟩
      · simp [rootFid, hfr, henc, hr1]
      · simp [frameAssign, hfr, henc, hr4]

/-- C10: evaluating an `Assign` expression with no resolved distance whose
name is not bound in the root (global) frame returns the
"has not been declared" error, yet the root frame is mutated anyway: after
the failed evaluation the name is bound there to the assigned value — the
error is not atomic. Stated over every well-formed frame heap, current frame
and assigned literal. -/
theorem c10_assign_global_error_mutates : ∀ (fuel : Nat) (locals : Locals)
    (frames : Frames) (out : List String) (fid : Nat) (name : Token)
    (idA idL : Nat) (v : LiteralValue) (r : Nat) (rootFr : Frame),
    wfFrames frames = Bool.true → fid < frames.length →
    rootFid (fid+1) frames fid = some r →
    frames[r]? = some rootFr →
    mapGet rootFr.values name.lexeme = none →
    evaluate (fuel+2) locals ⟨frames, out⟩ fid none (.Assign idA name (.Literal idL v))
      = (⟨frames.set r ⟨(mapInsert rootFr.values name.lexeme v).1, none⟩, out⟩,
         .error ("Variable " ++ name.lexeme ++ " has not been declared"))
    ∧ mapGet (mapInsert rootFr.values name.lexeme v).1 name.lexeme = some v := by
  intro fuel locals frames out fid name idA idL v r rootFr h1 h2 hroot hrfr hunbound
  obtain ⟨r2, rootFr2, g1, g2, g3, g4⟩ :=
    frameAssign_global (fid+1) frames fid name.lexeme v h1 h2 (Nat.lt_succ_self fid)
  rw [hroot] at g1
  obtain rfl : r = r2 := Option.some.inj g1
  obtain rfl : rootFr2 = rootFr := Option.some.inj (g2.symm.trans hrfr)
  refine ⟨?_, mapGet_insert_self ..⟩
  simp [evaluate, g4, hunbound]

/-- Witness for C10: in a two-frame chain whose current frame binds `x` but
whose root does not, `x = 7` evaluates to the undeclared-variable error while
inserting `x ↦ 7` into the root frame. -/
theorem c10_witness :
    evaluate 2 [] ⟨[⟨[("b", .Nil)], none⟩, ⟨[("x", .Number 5)], some 0⟩], []⟩ 1 none
      (.Assign 0 (Token.mk .Identifier "x" 1) (.Literal 1 (.Number 7)))
      = (⟨[⟨[("b", .Nil), ("x", .Number 7)], none⟩, ⟨[("x", .Number 5)], some 0⟩], []⟩,
         .error "Variable x has not been declared")
    ∧ mapGet [("b", .Nil), ("x", .Number 7)] "x" = some (.Number 7) :=
  c10_assign_global_error_mutates 0 [] [⟨[("b", .Nil)], none⟩, ⟨[("x", .Number 5)], some 0⟩]
    [] 1 (Token.mk .Identifier "x" 1) 0 1 (.Number 7) 0 ⟨[("b", .Nil)], none⟩
    rfl (by decide) rfl rfl rfl

/-- C6: for every environment chain and name, `Environment::get` with no
distance looks the name up in exactly the root frame — the lookup equals the
lookup in the root frame's bindings, ignoring the current and every
intermediate frame — and it returns `None` precisely when the root frame does
not bind the name. -/
theorem c6_get_global : ∀ (env : Environment) (name : String),
    env.get name none = some (mapGet env.rootValues name)
    ∧ (env.get name none = some none ↔ mapGet env.rootValues name = none) := by
  intro env name
  have h : env.get name none = some (mapGet env.rootValues name) := by
    induction env using Environment.rootValues.induct with
    | case1 values => simp [Environment.get, Environment.rootValues]
    | case2 values e ih => simpa [Environment.get, Environment.rootValues] using ih
  exact ⟨h, by rw [h]; simp⟩

/-- C5 (amended): for every chain and present distance `d` addressing an
existing frame, `Environment::assign` mutates exactly the frame `d` parent
hops away (inserting the binding there and leaving every other frame
untouched) and returns `true` unconditionally — not "true iff the name was
already bound there". -/
theorem c5_assign_distance : ∀ (env : Environment) (name : String)
    (value : LiteralValue) (d : Nat), d < env.depth →
    ∃ env2, env.assign name value (some d) = some (env2, Bool.true)
      ∧ env2.frameAt d = (env.frameAt d).map (fun b => (mapInsert b name value).1)
      ∧ ∀ i, i ≠ d → env2.frameAt i = env.frameAt i := by
  intro env
  induction env using Environment.rootValues.induct with
  | case1 values =>
    intro name value d hd
    simp [Environment.depth] at hd
    subst hd
    refine ⟨.mk (mapInsert values name value).1 none, ?_, ?_, ?_⟩
    · simp [Environment.assign]
    · simp [Environment.frameAt]
    · intro i hi
      cases i with
      | zero => exact absurd rfl hi
      | succ j => simp [Environment.frameAt]
  | case2 values e ih =>
    intro name value d hd
    cases d with
    | zero =>
      refine ⟨.mk (mapInsert values name value).1 (some e), ?_, ?_, ?_⟩
      · simp [Environment.assign]
      · simp [Environment.frameAt]
      · intro i hi
        cases i with
        | zero => exact absurd rfl hi
        | succ j => simp [Environment.frameAt]
    | succ d2 =>
      have hd2 : d2 < e.depth := by
        simp [Environment.depth] at hd
        omega
      obtain ⟨env2, he, hat, hrest⟩ := ih name value d2 hd2
      refine ⟨.mk values (some env2), ?_, ?_, ?_⟩
      · simp [Environment.assign, he]
      · simpa [Environment.frameAt] using hat
      · intro i hi
        cases i with
        | zero => simp [Environment.frameAt]
        | succ j =>
          have : j ≠ d2 := by omega
          simpa [Environment.frameAt] using hrest j this

/-- Counterexample for C5: assigning a fresh name at distance 0 into a frame
that does not bind it returns `true` even though the name was not already
bound in that frame — contradicting the claimed "returns true if and only if
the name was already bound in that exact frame". -/
theorem c5_counterexample :
    Environment.assign (.mk [] none) "x" .Nil (some 0)
      = some (.mk [("x", .Nil)] none, Bool.true)
    ∧ mapGet ([] : Bindings) "x" = none := by
  constructor
  · simp [Environment.assign, mapInsert]
  · rfl

/-- Witness for C5's amended theorem: a two-frame chain, assigning at
distance 1. -/
theorem c5_witness :
    ∃ env2, Environment.assign (.mk [("y", .Nil)] (some (.mk [] none))) "x" (.Number 7) (some 1)
        = some (env2, Bool.true)
      ∧ env2.frameAt 1 = ((Environment.mk [("y", .Nil)] (some (.mk [] none))).frameAt 1).map
          (fun b => (mapInsert b "x" (.Number 7)).1)
      ∧ ∀ i, i ≠ 1 → env2.frameAt i = (Environment.mk [("y", .Nil)] (some (.mk [] none))).frameAt i :=
  c5_assign_distance (.mk [("y", .Nil)] (some (.mk [] none))) "x" (.Number 7) 1
    (by simp [Environment.depth])

/-- C4 (amended): logical expressions short-circuit, with `or` returning the
evaluated left operand without evaluating the right when it is truthy, and
the result being the evaluation of the right operand otherwise; but `and`
with a falsy left operand returns the Boolean `False` produced by the
truthiness test — not the evaluated left operand itself — again without
evaluating the right. The right operand is arbitrary in the short-circuit
cases, and the state after the left operand is returned unchanged, so the
right operand is never evaluated there. -/
theorem c4_logical_short_circuit : ∀ (fuel : Nat) (locals : Locals) (st : EState)
    (fid : Nat) (distance : Option Nat) (l r : Expr) (id : Nat) (op : Token)
    (st1 : EState) (v tv : LiteralValue),
    evaluate fuel locals st fid distance l = (st1, .ok v) →
    v.is_truthy = some tv →
    (op.token_type = .Or → tv = .True →
      evaluate (fuel+1) locals st fid distance (.Logical id l op r) = (st1, .ok v))
    ∧ (op.token_type = .Or → tv = .False →
      evaluate (fuel+1) locals st fid distance (.Logical id l op r)
        = evaluate fuel locals st1 fid distance r)
    ∧ (op.token_type = .And → tv = .False →
      evaluate (fuel+1) locals st fid distance (.Logical id l op r) = (st1, .ok .False))
    ∧ (op.token_type = .And → tv = .True →
      evaluate (fuel+1) locals st fid distance (.Logical id l op r)
        = evaluate fuel locals st1 fid distance r) := by
  intro fuel locals st fid distance l r id op st1 v tv h1 h2
  refine ⟨?_, ?_, ?_, ?_⟩ <;> intro hop htv <;> subst htv <;>
    simp [evaluate, hop, h1, h2, LiteralValue.eq]

/-- Counterexample for C4: `0 and 1` evaluates to the Boolean `False`, which
is not the evaluated left operand `Number 0` the claim promises. -/
theorem c4_counterexample :
    evaluate 2 [] ⟨[], []⟩ 0 none
      (.Logical 9 (.Literal 10 (.Number 0)) (Token.mk .And "and" 1) (.Literal 11 (.Number 1)))
      = (⟨[], []⟩, .ok .False)
    ∧ LiteralValue.False ≠ LiteralValue.Number 0 :=
  ⟨rfl, fun h => LiteralValue.noConfusion h⟩

/-- Witness for C4's amended theorem: `1 or 5` short-circuits to the left
operand `Number 1`. -/
theorem c4_witness :
    evaluate 2 [] ⟨[], []⟩ 0 none
      (.Logical 7 (.Literal 8 (.Number 1)) (Token.mk .Or "or" 0) (.Literal 9 (.Number 5)))
      = (⟨[], []⟩, .ok (.Number 1)) :=
  (c4_logical_short_circuit 1 [] ⟨[], []⟩ 0 none (.Literal 8 (.Number 1))
    (.Literal 9 (.Number 5)) 7 (Token.mk .Or "or" 0) ⟨[], []⟩ (.Number 1) .True
    rfl rfl).1 rfl rfl

/-- C3: evaluating `1 == "1"` does NOT return `False` — it hits the
string-number error arm that the source places before the generic equality
arms, yielding "EqualEqual is not defined for string and number". The value
equality the spec describes (`PartialEq`) is itself total and cross-shape
unequal, and other cross-shape pairs such as `nil == 1` do evaluate to
`False`, which is why the mixed string/number case is a slip in the match-arm
order rather than a deliberate rule. -/
theorem c3_cross_type_equality :
    evaluate 2 [] ⟨[], []⟩ 0 none
      (.Binary 0 (.Literal 1 (.Number 1)) (Token.mk .EqualEqual "==" 1)
        (.Literal 2 (.StringValue "1")))
      = (⟨[], []⟩, .error "EqualEqual is not defined for string and number")
    ∧ LiteralValue.eq (.Number 1) (.StringValue "1") = Bool.false
    ∧ evaluate 2 [] ⟨[], []⟩ 0 none
        (.Binary 3 (.Literal 4 .Nil) (Token.mk .EqualEqual "==" 1)
          (.Literal 5 (.Number 1)))
        = (⟨[], []⟩, .ok .False) :=
  ⟨rfl, rfl, rfl⟩

/-- C2 (amended): when the name of a `Variable`, `Assign`, or
variable-callee `Call` use is found in some open resolver scope, the distance
is recorded keyed by the override id passed down from the enclosing context
when there is one (`rid`), and keyed by the use expression's own id only when
no override was passed — `resolve_var` passes the initializer's top-level
expression id down into the whole initializer and the `WhileStmt` arm passes
the condition's top-level expression id down into the whole condition, so
uses nested inside those are keyed by the enclosing expression's id, not
their own. -/
theorem c2_resolution_key : ∀ (st : RState) (name : Token) (d : Nat)
    (rid : Option Nat) (fuel vid cid aid lid : Nat) (paren : Token) (lv : LiteralValue),
    findScopeIdx st.scopes name.lexeme = some d →
    scopeGet (st.scopes.headD []) name.lexeme ≠ some Bool.false →
    resolve_expr (fuel+1) st (.Variable vid name) rid
      = .ok { st with locals := localsInsert st.locals (rid.getD vid) d }
    ∧ resolve_expr (fuel+2) st (.Call cid (.Variable vid name) paren []) rid
      = .ok { st with locals := localsInsert st.locals (rid.getD cid) d }
    ∧ resolve_expr (fuel+2) st (.Assign aid name (.Literal lid lv)) rid
      = .ok { st with locals := localsInsert st.locals (rid.getD aid) d } := by
  intro st name d rid fuel vid cid aid lid paren lv h1 h2
  have hloc : ∀ (e : Expr), resolve_local st e name rid
      = .ok { st with locals := localsInsert st.locals (rid.getD e.get_id) d } := by
    intro e
    cases rid <;> simp [resolve_local, h1, Option.getD]
  refine ⟨?_, ?_, ?_⟩
  · have hv := hloc (.Variable vid name)
    cases hs : st.scopes with
    | nil =>
      simp only [resolve_expr, resolve_expr_var, hs]
      simpa [hs, Expr.get_id] using hv
    | cons s rest =>
      rw [hs] at h2
      simp only [List.headD_cons] at h2
      simp only [resolve_expr, resolve_expr_var, hs]
      cases hflag : scopeGet s name.lexeme with
      | none => simpa [hs, Expr.get_id] using hv
      | some b =>
        cases b with
        | false => exact absurd hflag h2
        | true => simpa [hs, Expr.get_id] using hv
  · simp only [resolve_expr, resolve_expr_var]
    rw [hloc (.Call cid (.Variable vid name) paren [])]
    simp [resolve_exprs, Expr.get_id]
  · simp only [resolve_expr]
    exact hloc (.Assign aid name (.Literal lid lv))

/-- Counterexample for C2: resolving `{ var a = 1; var b = (a); }` records
the distance of the use of `a` against the id 50 of the grouping (the
initializer's top-level expression), not against the variable expression's
own id 51, which receives no entry; likewise a use nested in a while
condition `{ var a = 1; while (a) nil; }` is recorded against the condition's
top-level id 60, not the variable's id 61. -/
theorem c2_counterexample :
    resolve_many 32 ⟨[], []⟩
      [.Block
        [.Var (Token.mk .Identifier "a" 1) (.Literal 100 (.Number 1)),
         .Var (Token.mk .Identifier "b" 2) (.Grouping 50 (.Variable 51 (Token.mk .Identifier "a" 2)))]]
      = .ok ⟨[], [(50, 0)]⟩
    ∧ localsGet [(50, 0)] 51 = none
    ∧ resolve_many 32 ⟨[], []⟩
        [.Block
          [.Var (Token.mk .Identifier "a" 1) (.Literal 100 (.Number 1)),
           .WhileStmt (.Grouping 60 (.Variable 61 (Token.mk .Identifier "a" 2)))
             (.Expression (.Literal 102 .Nil))]]
        = .ok ⟨[], [(60, 0)]⟩ :=
  ⟨rfl, rfl, rfl⟩

/-- Witness for C2's amended theorem: one open scope binding `a`, an override
id 50 — the distance 0 is recorded against 50, not against the variable's
own id 51. -/
theorem c2_witness :
    resolve_expr 4 ⟨[[("a", Bool.true)]], []⟩
      (.Variable 51 (Token.mk .Identifier "a" 1)) (some 50)
      = .ok ⟨[[("a", Bool.true)]], [(50, 0)]⟩ :=
  (c2_resolution_key ⟨[[("a", Bool.true)]], []⟩ (Token.mk .Identifier "a" 1) 0 (some 50) 3
    51 52 53 54 (Token.mk .LeftParen "(" 1) .Nil (by decide) (by decide)).1

/-- C7: resolving a variable declaration declares the name not-ready,
resolves the initializer, then defines it, so for every starting resolver
state a block-local `{ var a = a; }` (any token, any id) fails with the
variable-used-in-its-own-initializer resolution error; and through the full
pipeline the program aborts before interpretation with that error and
produces no output — it never silently binds anything. -/
theorem c7_self_initializer :
    (∀ (fuel : Nat) (st : RState) (t : Token) (vid : Nat),
      resolve (fuel+4) st (.Block [.Var t (.Variable vid t)])
        = .error "Can't read local variable in its own initializer")
    ∧ runOutput 32
        [.Block [.Var (Token.mk .Identifier "a" 1) (.Variable 7 (Token.mk .Identifier "a" 1))]]
        = ([], some "Can't read local variable in its own initializer") := by
  constructor
  · intro fuel st t vid
    simp [resolve, resolve_many, resolve_expr, resolve_expr_var, begin_scope,
      declare, scopeInsert, scopeGet]
  · rfl

/-- C8: resolving and then interpreting
`{ var a = 1; { var a = 2; print a; } print a; }` prints exactly `2` then
`1`: the inner declaration shadows the outer binding for the inner print and
does not mutate the outer binding read by the outer print. -/
theorem c8_shadowing : runOutput 32 shadowProg = (["2", "1"], none) := rfl

/-- C1 evidence: in
`var i = 1; fun f() { while (i) { i = 0; return 1; print 2; } } print f();`
the `return` statement sets the return signal mid-iteration, yet the
`print 2` statement of the same block body still executes (output starts
with "2") and the while loop only exits because its re-evaluated condition
became falsy — the statement-execution loop of `Interpreter::interpret`
never checks the signal; only the per-call `fun_impl` loop does, between
top-level body statements, which is why the call still returns `1` (printed
last). Under the claim the output would have been exactly `["1"]`. -/
theorem c1_return_not_checked : runOutput 64 returnInWhileProg = (["2", "1"], none) := rfl

end Dena
